import Mathlib

/-!
Verification of the pheromessage gossip library: a shallow embedding of the
gossip-set replica (`src/data.rs`), the uniform and preferential gossip
engines (`src/lib.rs`), the shared fanout helper, and the peer-list
construction of the channel and multiplex adapters
(`src/channel.rs`, `pheromessage/src/channel.rs`, `pheromessage/src/multiplex.rs`).

Hash maps and hash sets are embedded extensionally as functions from the key
type; randomness (the rand crate's `choose_multiple` / `sample`) is embedded
by threading an index-selector function whose contract (distinct in-range
indices of the requested length) appears as an explicit hypothesis where a
claim depends on it.
-/

namespace Pheromessage

/-- Per-item counts of how many times an item was added or removed
(struct `ItemActions` in `data.rs`). -/
structure ItemActions where
  added_count : Nat
  removed_count : Nat
deriving DecidableEq, Repr

/-- The `Default` derive for `ItemActions`: both counters zero. -/
def ItemActions.deflt : ItemActions := ⟨0, 0⟩

/-- A set of unique items maintained through gossip (struct `GossipSet` in
`data.rs`); the backing `HashMap` is embedded as a function to `Option`. -/
structure GossipSet (T : Type) where
  items : T → Option ItemActions

/-- `GossipSet::default()`: the empty map. -/
def GossipSet.deflt {T : Type} : GossipSet T := ⟨fun _ => none⟩

/-- `GossipSet::is_present`: an item is present iff its entry exists and
`added_count > removed_count`. -/
def GossipSet.is_present {T : Type} (s : GossipSet T) (item : T) : Bool :=
  match s.items item with
  | some v => v.added_count > v.removed_count
  | none => false

/-- `GossipSet::add_item`: `self.items.entry(item).or_default().added_count += 1`. -/
def GossipSet.add_item {T : Type} [DecidableEq T] (s : GossipSet T) (item : T) :
    GossipSet T :=
  ⟨fun u =>
    if u = item then
      let v := (s.items item).getD ItemActions.deflt
      some { v with added_count := v.added_count + 1 }
    else s.items u⟩

/-- `GossipSet::remove_item`: `self.items.entry(item).or_default().removed_count += 1`. -/
def GossipSet.remove_item {T : Type} [DecidableEq T] (s : GossipSet T) (item : T) :
    GossipSet T :=
  ⟨fun u =>
    if u = item then
      let v := (s.items item).getD ItemActions.deflt
      some { v with removed_count := v.removed_count + 1 }
    else s.items u⟩

/-- An action to add or remove an item (enum `GossipSetAction` in `data.rs`). -/
inductive GossipSetAction (T : Type) where
  | add (value : T)
  | remove (value : T)
deriving DecidableEq, Repr

/-- A message that adds or removes an item from a gossipped set
(struct `GossipSetMessage` in `data.rs`); the `u128` identifier is embedded
as a `Nat` (identifiers are only compared for equality). -/
structure GossipSetMessage (T : Type) where
  id : Nat
  action : GossipSetAction T
deriving DecidableEq, Repr

/-- `impl SharedData for GossipSet`: dispatch on the message's action. -/
def GossipSet.update {T : Type} [DecidableEq T] (s : GossipSet T)
    (message : GossipSetMessage T) : GossipSet T :=
  match message.action with
  | GossipSetAction.add v => s.add_item v
  | GossipSetAction.remove v => s.remove_item v

/-- Trait `Message` in `lib.rs`: a message reports a unique identifier. -/
class Message (M : Type) (I : outParam Type) where
  mid : M → I

/-- Trait `SharedData` in `lib.rs`: a replica updated by messages. -/
class SharedData (S : Type) (M : Type) where
  sdUpdate : S → M → S

instance {T : Type} : Message (GossipSetMessage T) Nat :=
  ⟨GossipSetMessage.id⟩

instance {T : Type} [DecidableEq T] : SharedData (GossipSet T) (GossipSetMessage T) :=
  ⟨GossipSet.update⟩

/-- The index lists produced by `rand::seq::SliceRandom::choose_multiple` and
`rand::seq::index::sample` are embedded as a selector function `sel n k`
returning the chosen indices out of `0..n`. The rand contract — exactly `k`
distinct indices, each below `n`, whenever `k ≤ n` — is this predicate. -/
def ValidSel (sel : Nat → Nat → List Nat) : Prop :=
  ∀ n k, k ≤ n →
    (sel n k).length = k ∧ (sel n k).Nodup ∧ ∀ j ∈ sel n k, j < n

/-- `targets.choose_multiple(&mut rng, fanout)`: sample `min fanout |targets|`
elements of `targets` without replacement, via the selector. -/
def chooseMultiple {P : Type} (sel : Nat → Nat → List Nat) (targets : List P)
    (fanout : Nat) : List P :=
  (sel targets.length (min fanout targets.length)).filterMap fun j => targets[j]?

/-- The free function `gossip` in `lib.rs`: choose a random subset of size
`fanout` of `targets` and hand it to the delivery capability. Returns the
delivery result together with the batch handed over (the observable
side-effect). -/
def gossip {P M ε : Type} (delivery : M → List P → Except ε Unit)
    (sel : Nat → Nat → List Nat) (message : M) (targets : List P)
    (fanout : Nat) : Except ε Unit × List P :=
  let chosen := chooseMultiple sel targets fanout
  (delivery message chosen, chosen)

/-- Struct `UniformGossip` in `lib.rs`; the `HashSet` of seen message IDs is
embedded as a Boolean-valued function, the delivery capability as a function
returning `Except`. -/
structure UniformGossip (P S I ε M : Type) where
  peers : List P
  seen_messages : I → Bool
  delivery : M → List P → Except ε Unit
  data : S
  fanout : Nat

/-- `UniformGossip::create`. -/
def UniformGossip.create {P S I ε M : Type} (peers : List P) (fanout : Nat)
    (data : S) (delivery : M → List P → Except ε Unit) :
    UniformGossip P S I ε M :=
  ⟨peers, fun _ => false, delivery, data, fanout⟩

/-- Outcome of a uniform engine operation: the returned `Result`, the engine
state after the call, and the batch of endpoints handed to delivery
(empty when delivery was not invoked). -/
structure UniformOutcome (P S I ε M : Type) where
  result : Except ε Unit
  engine : UniformGossip P S I ε M
  sent : List P

/-- `UniformGossip::receive`: insert the ID into `seen_messages`; only on
first sight update the replica and gossip to `peers`. -/
def UniformGossip.receive {P S I ε M : Type} [Message M I] [SharedData S M]
    [DecidableEq I] (sel : Nat → Nat → List Nat) (g : UniformGossip P S I ε M)
    (message : M) : UniformOutcome P S I ε M :=
  let i := Message.mid message
  let isNew := ! g.seen_messages i
  let seen := fun i2 => if i2 = i then true else g.seen_messages i2
  if isNew then
    let d := SharedData.sdUpdate g.data message
    let out := gossip g.delivery sel message g.peers g.fanout
    ⟨out.1, { g with seen_messages := seen, data := d }, out.2⟩
  else
    ⟨Except.ok (), { g with seen_messages := seen }, []⟩

/-- `UniformGossip::update`: update the replica, record the ID as seen, and
gossip to `peers` — unconditionally. -/
def UniformGossip.update {P S I ε M : Type} [Message M I] [SharedData S M]
    [DecidableEq I] (sel : Nat → Nat → List Nat) (g : UniformGossip P S I ε M)
    (message : M) : UniformOutcome P S I ε M :=
  let i := Message.mid message
  let seen := fun i2 => if i2 = i then true else g.seen_messages i2
  let d := SharedData.sdUpdate g.data message
  let out := gossip g.delivery sel message g.peers g.fanout
  ⟨out.1, { g with seen_messages := seen, data := d }, out.2⟩

/-- Enum `SeenCount` in `lib.rs`. -/
inductive SeenCount where
  | Once
  | Twice
  | MoreThanTwice
deriving DecidableEq, Repr

/-- `SeenCount::increment`: saturating `Once → Twice → MoreThanTwice`. -/
def SeenCount.increment : SeenCount → SeenCount
  | SeenCount.Once => SeenCount.Twice
  | SeenCount.Twice => SeenCount.MoreThanTwice
  | SeenCount.MoreThanTwice => SeenCount.MoreThanTwice

/-- Struct `PreferentialGossip` in `lib.rs`; the `HashMap` message log is
embedded as a function to `Option SeenCount`. -/
structure PreferentialGossip (P S I ε M : Type) where
  primaries : List P
  secondaries : List P
  message_log : I → Option SeenCount
  primary : Bool
  delivery : M → List P → Except ε Unit
  data : S
  fanout : Nat

/-- `PreferentialGossip::create` (constructor used by the channel and
multiplex adapters). -/
def PreferentialGossip.create {P S I ε M : Type} (primaries secondaries : List P)
    (primary : Bool) (fanout : Nat) (data : S)
    (delivery : M → List P → Except ε Unit) : PreferentialGossip P S I ε M :=
  ⟨primaries, secondaries, fun _ => none, primary, delivery, data, fanout⟩

/-- `PreferentialGossip::increment_seen`:
`entry(id).and_modify(increment).or_insert(Once)`, returning the
post-increment count together with the updated engine. -/
def PreferentialGossip.increment_seen {P S I ε M : Type} [DecidableEq I]
    (g : PreferentialGossip P S I ε M) (message_id : I) :
    SeenCount × PreferentialGossip P S I ε M :=
  let c := match g.message_log message_id with
    | some c0 => c0.increment
    | none => SeenCount.Once
  (c, { g with message_log := fun i => if i = message_id then some c else g.message_log i })

/-- Outcome of a preferential engine operation: the returned `Result`, the
engine state after the call, the target list handed to the `gossip` helper
(`none` when the message was dropped), and the batch of endpoints handed to
delivery. -/
structure PrefOutcome (P S I ε M : Type) where
  result : Except ε Unit
  engine : PreferentialGossip P S I ε M
  targets : Option (List P)
  sent : List P

/-- `PreferentialGossip::receive`: increment the seen count; update the
replica only when the post-increment count is `Once`; choose forwarding
targets from the (role, count) table; gossip to them unless dropping. -/
def PreferentialGossip.receive {P S I ε M : Type} [Message M I] [SharedData S M]
    [DecidableEq I] (sel : Nat → Nat → List Nat)
    (g : PreferentialGossip P S I ε M) (message : M) : PrefOutcome P S I ε M :=
  let cg := g.increment_seen (Message.mid message)
  let count_seen := cg.1
  let g1 := cg.2
  let g2 := if count_seen = SeenCount.Once then
      { g1 with data := SharedData.sdUpdate g1.data message }
    else g1
  let targets : Option (List P) :=
    if g.primary then
      match count_seen with
      | SeenCount.Once => some g.primaries
      | SeenCount.Twice => some g.secondaries
      | SeenCount.MoreThanTwice => none
    else if count_seen = SeenCount.Once then some g.secondaries
    else none
  match targets with
  | some ts =>
    let out := gossip g2.delivery sel message ts g2.fanout
    ⟨out.1, g2, some ts, out.2⟩
  | none => ⟨Except.ok (), g2, none, []⟩

/-- `PreferentialGossip::update`: update the replica, increment the seen
count, and gossip to `primaries` — unconditionally. -/
def PreferentialGossip.update {P S I ε M : Type} [Message M I] [SharedData S M]
    [DecidableEq I] (sel : Nat → Nat → List Nat)
    (g : PreferentialGossip P S I ε M) (message : M) : PrefOutcome P S I ε M :=
  let g1 := { g with data := SharedData.sdUpdate g.data message }
  let g2 := (g1.increment_seen (Message.mid message)).2
  let out := gossip g2.delivery sel message g2.primaries g2.fanout
  ⟨out.1, g2, some g2.primaries, out.2⟩

/-- Peer indices built by `uniform_local_gossip_set` in `channel.rs` for node
`i`: every index `j` in `0..num_nodes` with `i != j`. -/
def channelPeerIdx (num_nodes i : Nat) : List Nat :=
  (List.range num_nodes).filter fun j => i != j

/-- Primary peer indices built by `preferential_local_gossip_set` in
`pheromessage/src/channel.rs` for node `i`: every `j ≠ i` with
`j < num_primaries`. -/
def prefChannelPrimaryIdx (num_nodes num_primaries i : Nat) : List Nat :=
  (List.range num_nodes).filter fun j => i != j && decide (j < num_primaries)

/-- Secondary peer indices built by `preferential_local_gossip_set` in
`pheromessage/src/channel.rs` for node `i`: every `j ≠ i` with
`j ≥ num_primaries`. -/
def prefChannelSecondaryIdx (num_nodes num_primaries i : Nat) : List Nat :=
  (List.range num_nodes).filter fun j => i != j && ! decide (j < num_primaries)

/-- Struct `NodeGroupInfo` in `multiplex.rs`. -/
structure NodeGroupInfo where
  group_index : Nat
  node_index : Nat
deriving DecidableEq, Repr

/-- `NodeGroupInfo::for_node`: group by modulus, index within group by
division. -/
def NodeGroupInfo.for_node (num_groups global_node_index : Nat) : NodeGroupInfo :=
  ⟨global_node_index % num_groups, global_node_index / num_groups⟩

/-- The self-exclusion remap from `multiplex.rs`:
`if j < i { j } else { j + 1 }`. -/
def remapPeer (i j : Nat) : Nat := if j < i then j else j + 1

/-- Peer indices built by the multiplex constructors for node `i` from a
sample `smp` drawn from `0..num_nodes - 1`
(`sample(&mut rng, num_nodes - 1, peers_per_node)` followed by the remap). -/
def multiplexPeerIdx (i : Nat) (smp : List Nat) : List Nat :=
  smp.map (remapPeer i)

/-- The multiplex peer endpoints: each remapped global index converted to the
`(group_index, node_index)` addressing pair. -/
def multiplexPeerEndpoints (num_groups i : Nat) (smp : List Nat) :
    List NodeGroupInfo :=
  (multiplexPeerIdx i smp).map (NodeGroupInfo.for_node num_groups)

/-- The post-increment seen count produced by
`PreferentialGossip::increment_seen`: `Once` for an absent entry, the
saturating increment otherwise. -/
def postCount {I : Type} (log : I → Option SeenCount) (i : I) : SeenCount :=
  match log i with
  | some c => c.increment
  | none => SeenCount.Once

/-- The forwarding-target table of the preferential engine as stated in the
spec (section 4.8): row by own role, column by post-increment seen count. -/
def specTargets {P : Type} (primary : Bool) (c : SeenCount)
    (primaries secondaries : List P) : Option (List P) :=
  match primary, c with
  | true, SeenCount.Once => some primaries
  | true, SeenCount.Twice => some secondaries
  | true, SeenCount.MoreThanTwice => none
  | false, SeenCount.Once => some secondaries
  | false, _ => none

/-- A direct call on the gossip set, for reasoning about call sequences. -/
inductive SetOp (T : Type) where
  | addCall (t : T)
  | removeCall (t : T)
deriving DecidableEq, Repr

/-- Apply one direct call. -/
def applySetOp {T : Type} [DecidableEq T] (s : GossipSet T) :
    SetOp T → GossipSet T
  | SetOp.addCall t => s.add_item t
  | SetOp.removeCall t => s.remove_item t

/-- Apply a finite sequence of direct calls in order. -/
def runSetOps {T : Type} [DecidableEq T] (s : GossipSet T)
    (ops : List (SetOp T)) : GossipSet T :=
  ops.foldl applySetOp s

/-- Number of `add_item x` calls in a sequence. -/
def countAdds {T : Type} [DecidableEq T] (ops : List (SetOp T)) (x : T) : Nat :=
  ops.countP fun o => match o with
    | SetOp.addCall t => decide (t = x)
    | SetOp.removeCall _ => false

/-- Number of `remove_item x` calls in a sequence. -/
def countRemoves {T : Type} [DecidableEq T] (ops : List (SetOp T)) (x : T) : Nat :=
  ops.countP fun o => match o with
    | SetOp.addCall _ => false
    | SetOp.removeCall t => decide (t = x)

/-- The `added_count` recorded for `x` (zero when no entry exists). -/
def addedAt {T : Type} (s : GossipSet T) (x : T) : Nat :=
  ((s.items x).getD ItemActions.deflt).added_count

/-- The `removed_count` recorded for `x` (zero when no entry exists). -/
def removedAt {T : Type} (s : GossipSet T) (x : T) : Nat :=
  ((s.items x).getD ItemActions.deflt).removed_count

/-- Any operation of the `GossipSet` surface, including the read-only
membership query (which takes `&self` and leaves the state unchanged). -/
inductive GossipSetOp (T : Type) where
  | addItem (t : T)
  | removeItem (t : T)
  | updateMsg (m : GossipSetMessage T)
  | isPresentQuery (t : T)

/-- State transition of one `GossipSet` operation; the membership query is
read-only. -/
def applyGossipSetOp {T : Type} [DecidableEq T] (s : GossipSet T) :
    GossipSetOp T → GossipSet T
  | GossipSetOp.addItem t => s.add_item t
  | GossipSetOp.removeItem t => s.remove_item t
  | GossipSetOp.updateMsg m => s.update m
  | GossipSetOp.isPresentQuery _ => s

/-! ## Basic lemmas about the gossip set -/

theorem GossipSet.eq_of_items_eq {T : Type} {s1 s2 : GossipSet T}
    (h : ∀ u, s1.items u = s2.items u) : s1 = s2 := by
  cases s1
  cases s2
  exact congrArg GossipSet.mk (funext h)

theorem addedAt_add_item {T : Type} [DecidableEq T] (s : GossipSet T) (t x : T) :
    addedAt (s.add_item t) x = addedAt s x + if x = t then 1 else 0 := by
  by_cases h : x = t <;>
    simp [addedAt, GossipSet.add_item, h]

theorem removedAt_add_item {T : Type} [DecidableEq T] (s : GossipSet T) (t x : T) :
    removedAt (s.add_item t) x = removedAt s x := by
  by_cases h : x = t <;>
    simp [removedAt, GossipSet.add_item, h]

theorem addedAt_remove_item {T : Type} [DecidableEq T] (s : GossipSet T) (t x : T) :
    addedAt (s.remove_item t) x = addedAt s x := by
  by_cases h : x = t <;>
    simp [addedAt, GossipSet.remove_item, h]

theorem removedAt_remove_item {T : Type} [DecidableEq T] (s : GossipSet T) (t x : T) :
    removedAt (s.remove_item t) x = removedAt s x + if x = t then 1 else 0 := by
  by_cases h : x = t <;>
    simp [removedAt, GossipSet.remove_item, h]

theorem is_present_eq_counts {T : Type} (s : GossipSet T) (x : T) :
    s.is_present x = decide (removedAt s x < addedAt s x) := by
  cases h : s.items x <;>
    simp [GossipSet.is_present, addedAt, removedAt, h, ItemActions.deflt]

theorem addedAt_runSetOps {T : Type} [DecidableEq T] (ops : List (SetOp T))
    (s : GossipSet T) (x : T) :
    addedAt (runSetOps s ops) x = addedAt s x + countAdds ops x := by
  induction ops generalizing s with
  | nil => simp [runSetOps, countAdds]
  | cons o rest ih =>
    have hrun : runSetOps s (o :: rest) = runSetOps (applySetOp s o) rest := rfl
    rw [hrun, ih]
    cases o with
    | addCall t =>
      rw [show applySetOp s (SetOp.addCall t) = s.add_item t from rfl]
      rw [addedAt_add_item]
      have h2 : countAdds (SetOp.addCall t :: rest) x
          = countAdds rest x + if t = x then 1 else 0 := by
        simp [countAdds, List.countP_cons]
      rw [h2]
      by_cases h : x = t
      · subst h
        simp
        omega
      · simp [h, Ne.symm h]
    | removeCall t =>
      rw [show applySetOp s (SetOp.removeCall t) = s.remove_item t from rfl]
      rw [addedAt_remove_item]
      simp [countAdds, List.countP_cons]

theorem removedAt_runSetOps {T : Type} [DecidableEq T] (ops : List (SetOp T))
    (s : GossipSet T) (x : T) :
    removedAt (runSetOps s ops) x = removedAt s x + countRemoves ops x := by
  induction ops generalizing s with
  | nil => simp [runSetOps, countRemoves]
  | cons o rest ih =>
    have hrun : runSetOps s (o :: rest) = runSetOps (applySetOp s o) rest := rfl
    rw [hrun, ih]
    cases o with
    | addCall t =>
      rw [show applySetOp s (SetOp.addCall t) = s.add_item t from rfl]
      rw [removedAt_add_item]
      simp [countRemoves, List.countP_cons]
    | removeCall t =>
      rw [show applySetOp s (SetOp.removeCall t) = s.remove_item t from rfl]
      rw [removedAt_remove_item]
      have h2 : countRemoves (SetOp.removeCall t :: rest) x
          = countRemoves rest x + if t = x then 1 else 0 := by
        simp [countRemoves, List.countP_cons]
      rw [h2]
      by_cases h : x = t
      · subst h
        simp
        omega
      · simp [h, Ne.symm h]

/-- C2: after any finite sequence of `add_item`/`remove_item` calls starting
from the empty gossip set, `is_present x` is true exactly when the number of
`add_item x` calls strictly exceeds the number of `remove_item x` calls. -/
theorem gossipSet_membership_counts {T : Type} [DecidableEq T]
    (ops : List (SetOp T)) (x : T) :
    (runSetOps GossipSet.deflt ops).is_present x =
      decide (countRemoves ops x < countAdds ops x) := by
  rw [is_present_eq_counts, addedAt_runSetOps, removedAt_runSetOps]
  simp [addedAt, removedAt, GossipSet.deflt, ItemActions.deflt]

theorem applySetOp_comm {T : Type} [DecidableEq T] (s : GossipSet T)
    (o1 o2 : SetOp T) :
    applySetOp (applySetOp s o1) o2 = applySetOp (applySetOp s o2) o1 := by
  apply GossipSet.eq_of_items_eq
  intro u
  cases o1 with
  | addCall t1 =>
    cases o2 with
    | addCall t2 =>
      by_cases h1 : u = t1 <;> by_cases h2 : u = t2 <;>
        by_cases h3 : t1 = t2 <;>
        simp_all [applySetOp, GossipSet.add_item]
    | removeCall t2 =>
      by_cases h1 : u = t1 <;> by_cases h2 : u = t2 <;>
        by_cases h3 : t1 = t2 <;>
        simp_all [applySetOp, GossipSet.add_item, GossipSet.remove_item]
  | removeCall t1 =>
    cases o2 with
    | addCall t2 =>
      by_cases h1 : u = t1 <;> by_cases h2 : u = t2 <;>
        by_cases h3 : t1 = t2 <;>
        simp_all [applySetOp, GossipSet.add_item, GossipSet.remove_item]
    | removeCall t2 =>
      by_cases h1 : u = t1 <;> by_cases h2 : u = t2 <;>
        by_cases h3 : t1 = t2 <;>
        simp_all [applySetOp, GossipSet.remove_item]

/-- The replica update dispatches to the direct call of its action. -/
def opOfMsg {T : Type} (m : GossipSetMessage T) : SetOp T :=
  match m.action with
  | GossipSetAction.add v => SetOp.addCall v
  | GossipSetAction.remove v => SetOp.removeCall v

theorem update_eq_applySetOp {T : Type} [DecidableEq T] (s : GossipSet T)
    (m : GossipSetMessage T) : s.update m = applySetOp s (opOfMsg m) := by
  cases h : m.action <;> simp [GossipSet.update, opOfMsg, applySetOp, h]

/-- C6: the gossip-set `update` is commutative: for every state and every
pair of messages (identifiers distinct or equal), the two application orders
yield the same state. -/
theorem gossipSet_update_comm {T : Type} [DecidableEq T] (s : GossipSet T)
    (m1 m2 : GossipSetMessage T) :
    (s.update m1).update m2 = (s.update m2).update m1 := by
  rw [update_eq_applySetOp, update_eq_applySetOp, update_eq_applySetOp,
    update_eq_applySetOp, applySetOp_comm]

/-- C8: every `GossipSet` operation (`add_item`, `remove_item`, `update`, and
the read-only `is_present` query) leaves both counters of every element no
smaller than before, and an existing entry is never removed. -/
theorem gossipSet_monotonic {T : Type} [DecidableEq T] (s : GossipSet T)
    (op : GossipSetOp T) (t : T) :
    addedAt s t ≤ addedAt (applyGossipSetOp s op) t
    ∧ removedAt s t ≤ removedAt (applyGossipSetOp s op) t
    ∧ ∀ v, s.items t = some v →
        ∃ w, (applyGossipSetOp s op).items t = some w
          ∧ v.added_count ≤ w.added_count
          ∧ v.removed_count ≤ w.removed_count := by
  have base : ∀ (s2 : GossipSet T) (o : SetOp T),
      addedAt s2 t ≤ addedAt (applySetOp s2 o) t
      ∧ removedAt s2 t ≤ removedAt (applySetOp s2 o) t
      ∧ ∀ v, s2.items t = some v →
          ∃ w, (applySetOp s2 o).items t = some w
            ∧ v.added_count ≤ w.added_count
            ∧ v.removed_count ≤ w.removed_count := by
    intro s2 o
    cases o with
    | addCall u =>
      refine ⟨?_, ?_, ?_⟩
      · rw [show applySetOp s2 (SetOp.addCall u) = s2.add_item u from rfl,
          addedAt_add_item]
        omega
      · rw [show applySetOp s2 (SetOp.addCall u) = s2.add_item u from rfl,
          removedAt_add_item]
      · intro v hv
        by_cases h : t = u
        · subst h
          refine ⟨{ v with added_count := v.added_count + 1 }, ?_, ?_, ?_⟩
          · simp [applySetOp, GossipSet.add_item, hv]
          · simp
          · simp
        · exact ⟨v, by simp [applySetOp, GossipSet.add_item, h, hv], le_refl _, le_refl _⟩
    | removeCall u =>
      refine ⟨?_, ?_, ?_⟩
      · rw [show applySetOp s2 (SetOp.removeCall u) = s2.remove_item u from rfl,
          addedAt_remove_item]
      · rw [show applySetOp s2 (SetOp.removeCall u) = s2.remove_item u from rfl,
          removedAt_remove_item]
        omega
      · intro v hv
        by_cases h : t = u
        · subst h
          refine ⟨{ v with removed_count := v.removed_count + 1 }, ?_, ?_, ?_⟩
          · simp [applySetOp, GossipSet.remove_item, hv]
          · simp
          · simp
        · exact ⟨v, by simp [applySetOp, GossipSet.remove_item, h, hv], le_refl _, le_refl _⟩
  cases op with
  | addItem u => exact base s (SetOp.addCall u)
  | removeItem u => exact base s (SetOp.removeCall u)
  | updateMsg m =>
    have h : applyGossipSetOp s (GossipSetOp.updateMsg m) = applySetOp s (opOfMsg m) := by
      simp [applyGossipSetOp, update_eq_applySetOp]
    rw [h]
    exact base s (opOfMsg m)
  | isPresentQuery u =>
    exact ⟨le_refl _, le_refl _, fun v hv => ⟨v, hv, le_refl _, le_refl _⟩⟩

/-! ## Lemmas about the fanout selection helper -/

theorem length_filterMap_getElem {P : Type} (targets : List P) (l : List Nat)
    (h : ∀ j ∈ l, j < targets.length) :
    (l.filterMap fun j => targets[j]?).length = l.length := by
  induction l with
  | nil => simp
  | cons j rest ih =>
    have hj : j < targets.length := h j (List.mem_cons_self _ _)
    have hr : ∀ x ∈ rest, x < targets.length :=
      fun x hx => h x (List.mem_cons_of_mem _ hx)
    simp [List.filterMap_cons, List.getElem?_eq_getElem hj, ih hr]

theorem nodup_filterMap_getElem {P : Type} (targets : List P) (l : List Nat)
    (hl : l.Nodup) (h : ∀ j ∈ l, j < targets.length) (ht : targets.Nodup) :
    (l.filterMap fun j => targets[j]?).Nodup := by
  induction l with
  | nil => simp
  | cons j rest ih =>
    have hj : j < targets.length := h j (List.mem_cons_self _ _)
    have hr : ∀ x ∈ rest, x < targets.length :=
      fun x hx => h x (List.mem_cons_of_mem _ hx)
    have hjr : j ∉ rest := (List.nodup_cons.mp hl).1
    have hrest : rest.Nodup := (List.nodup_cons.mp hl).2
    rw [List.filterMap_cons, List.getElem?_eq_getElem hj]
    refine List.nodup_cons.mpr ⟨?_, ih hrest hr⟩
    intro hmem
    obtain ⟨j2, hj2mem, hj2⟩ := List.mem_filterMap.mp hmem
    have hj2lt : j2 < targets.length := hr j2 hj2mem
    rw [List.getElem?_eq_getElem hj2lt] at hj2
    have : j2 = j := (ht.getElem_inj_iff).mp (Option.some_injective _ hj2)
    exact hjr (this ▸ hj2mem)

theorem mem_filterMap_getElem {P : Type} (targets : List P) (l : List Nat)
    (hlen : l.length = targets.length) (hl : l.Nodup)
    (h : ∀ j ∈ l, j < targets.length) (p : P) (hp : p ∈ targets) :
    p ∈ l.filterMap fun j => targets[j]? := by
  obtain ⟨j, hj, hpj⟩ := List.mem_iff_getElem.mp hp
  have hsub : l.toFinset ⊆ Finset.range targets.length := by
    intro x hx
    exact Finset.mem_range.mpr (h x (List.mem_toFinset.mp hx))
  have hcard : (Finset.range targets.length).card ≤ l.toFinset.card := by
    rw [List.toFinset_card_of_nodup hl, hlen, Finset.card_range]
  have heq : l.toFinset = Finset.range targets.length :=
    Finset.eq_of_subset_of_card_le hsub hcard
  have hjl : j ∈ l := by
    rw [← List.mem_toFinset, heq]
    exact Finset.mem_range.mpr hj
  exact List.mem_filterMap.mpr ⟨j, hjl, by rw [List.getElem?_eq_getElem hj, hpj]⟩

/-- The take-a-prefix selector satisfies the rand sampling contract; it is
used to instantiate selector hypotheses on concrete inputs. -/
def takeSel : Nat → Nat → List Nat := fun n k => (List.range n).take k

theorem validSel_takeSel : ValidSel takeSel := by
  intro n k hk
  refine ⟨?_, ?_, ?_⟩
  · rw [takeSel, List.length_take, List.length_range]
    omega
  · exact (List.nodup_range n).sublist (List.take_sublist _ _)
  · intro j hj
    have := List.take_subset k (List.range n) hj
    simpa using this

/-! ## Characterization of the engine operations -/

theorem uniformReceive_eq {P S I ε M : Type} [Message M I] [SharedData S M]
    [DecidableEq I] (sel : Nat → Nat → List Nat) (g : UniformGossip P S I ε M)
    (m : M) :
    g.receive sel m =
      if g.seen_messages (Message.mid m) then
        ⟨Except.ok (),
         { g with seen_messages := fun i2 =>
             if i2 = Message.mid m then true else g.seen_messages i2 },
         []⟩
      else
        ⟨g.delivery m (chooseMultiple sel g.peers g.fanout),
         { g with
            seen_messages := fun i2 =>
              if i2 = Message.mid m then true else g.seen_messages i2,
            data := SharedData.sdUpdate g.data m },
         chooseMultiple sel g.peers g.fanout⟩ := by
  by_cases h : g.seen_messages (Message.mid m) <;>
    simp [UniformGossip.receive, h, gossip]

theorem uniformUpdate_eq {P S I ε M : Type} [Message M I] [SharedData S M]
    [DecidableEq I] (sel : Nat → Nat → List Nat) (g : UniformGossip P S I ε M)
    (m : M) :
    g.update sel m =
      ⟨g.delivery m (chooseMultiple sel g.peers g.fanout),
       { g with
          seen_messages := fun i2 =>
            if i2 = Message.mid m then true else g.seen_messages i2,
          data := SharedData.sdUpdate g.data m },
       chooseMultiple sel g.peers g.fanout⟩ := rfl

theorem prefReceive_eq {P S I ε M : Type} [Message M I] [SharedData S M]
    [DecidableEq I] (sel : Nat → Nat → List Nat)
    (gp : PreferentialGossip P S I ε M) (m : M) :
    gp.receive sel m =
      match specTargets gp.primary (postCount gp.message_log (Message.mid m))
          gp.primaries gp.secondaries with
      | some ts =>
        ⟨gp.delivery m (chooseMultiple sel ts gp.fanout),
         { gp with
            message_log := fun i =>
              if i = Message.mid m then
                some (postCount gp.message_log (Message.mid m))
              else gp.message_log i,
            data :=
              if postCount gp.message_log (Message.mid m) = SeenCount.Once then
                SharedData.sdUpdate gp.data m
              else gp.data },
         some ts, chooseMultiple sel ts gp.fanout⟩
      | none =>
        ⟨Except.ok (),
         { gp with
            message_log := fun i =>
              if i = Message.mid m then
                some (postCount gp.message_log (Message.mid m))
              else gp.message_log i,
            data :=
              if postCount gp.message_log (Message.mid m) = SeenCount.Once then
                SharedData.sdUpdate gp.data m
              else gp.data },
         none, []⟩ := by
  cases hc : gp.message_log (Message.mid m) with
  | none =>
    cases hp : gp.primary <;>
      simp [PreferentialGossip.receive, PreferentialGossip.increment_seen,
        postCount, specTargets, gossip, hc, hp]
  | some c =>
    cases c <;> cases hp : gp.primary <;>
      simp [PreferentialGossip.receive, PreferentialGossip.increment_seen,
        postCount, specTargets, SeenCount.increment, gossip, hc, hp]

theorem prefUpdate_eq {P S I ε M : Type} [Message M I] [SharedData S M]
    [DecidableEq I] (sel : Nat → Nat → List Nat)
    (gp : PreferentialGossip P S I ε M) (m : M) :
    gp.update sel m =
      ⟨gp.delivery m (chooseMultiple sel gp.primaries gp.fanout),
       { gp with
          message_log := fun i =>
            if i = Message.mid m then
              some (postCount gp.message_log (Message.mid m))
            else gp.message_log i,
          data := SharedData.sdUpdate gp.data m },
       some gp.primaries, chooseMultiple sel gp.primaries gp.fanout⟩ := by
  cases hc : gp.message_log (Message.mid m) <;>
    simp [PreferentialGossip.update, PreferentialGossip.increment_seen,
      postCount, gossip, hc]

/-- C4: the shared `gossip` helper hands delivery exactly
`min fanout |targets|` endpoints, sampled without replacement (no duplicates
when the target list has none); when `|targets| ≤ fanout` every target is
among them; consequently a uniform `receive` on first sight, a uniform
`update`, and a preferential `update` each cause exactly
`min fanout |list|` sends (in particular at most `fanout`), and a
preferential `receive` that forwards to a target list `ts` causes exactly
`min fanout |ts|` sends. -/
theorem gossip_fanout_spec {P S I ε M : Type} [Message M I] [SharedData S M]
    [DecidableEq I] (sel : Nat → Nat → List Nat) (hsel : ValidSel sel)
    (targets : List P) (fanout : Nat) (gu : UniformGossip P S I ε M)
    (gp : PreferentialGossip P S I ε M) (m : M) :
    (chooseMultiple sel targets fanout).length = min fanout targets.length
    ∧ (targets.Nodup → (chooseMultiple sel targets fanout).Nodup)
    ∧ (targets.length ≤ fanout → ∀ p ∈ targets, p ∈ chooseMultiple sel targets fanout)
    ∧ (gu.seen_messages (Message.mid m) = false →
        (gu.receive sel m).sent.length = min gu.fanout gu.peers.length)
    ∧ (gu.update sel m).sent.length = min gu.fanout gu.peers.length
    ∧ (gp.update sel m).sent.length = min gp.fanout gp.primaries.length
    ∧ (∀ ts, (gp.receive sel m).targets = some ts →
        (gp.receive sel m).sent.length = min gp.fanout ts.length) := by
  have hmin : ∀ (t2 : List P), min fanout t2.length ≤ t2.length := fun t2 => min_le_right _ _
  have hcore : ∀ (t2 : List P) (k : Nat),
      (chooseMultiple sel t2 k).length = min k t2.length := by
    intro t2 k
    obtain ⟨hlen, _, hmem⟩ := hsel t2.length (min k t2.length) (min_le_right _ _)
    rw [chooseMultiple, length_filterMap_getElem t2 _ hmem, hlen]
  refine ⟨hcore targets fanout, ?_, ?_, ?_, ?_, ?_, ?_⟩
  · intro ht
    obtain ⟨_, hnd, hmem⟩ := hsel targets.length (min fanout targets.length) (min_le_right _ _)
    exact nodup_filterMap_getElem targets _ hnd hmem ht
  · intro hle p hp
    have hminn : min fanout targets.length = targets.length := by omega
    obtain ⟨hlen, hnd, hmem⟩ := hsel targets.length (min fanout targets.length) (min_le_right _ _)
    rw [hminn] at hlen hnd hmem
    rw [chooseMultiple, hminn]
    exact mem_filterMap_getElem targets _ hlen hnd hmem p hp
  · intro hfirst
    have : (gu.receive sel m).sent = chooseMultiple sel gu.peers gu.fanout := by
      simp [UniformGossip.receive, hfirst, gossip]
    rw [this, hcore]
  · have : (gu.update sel m).sent = chooseMultiple sel gu.peers gu.fanout := rfl
    rw [this, hcore]
  · have : (gp.update sel m).sent = chooseMultiple sel gp.primaries gp.fanout := rfl
    rw [this, hcore]
  · intro ts hts
    rw [prefReceive_eq] at hts ⊢
    cases hcase : specTargets gp.primary (postCount gp.message_log (Message.mid m))
        gp.primaries gp.secondaries with
    | none =>
      rw [hcase] at hts
      simp at hts
    | some ts2 =>
      rw [hcase] at hts
      have hts2 : ts2 = ts := by simpa using hts
      subst hts2
      simpa using hcore ts2 gp.fanout

/-- C1: for every preferential gossip engine, `receive` follows the finite
transition table: with `c` the post-increment seen count of the message's
identifier, the replica is updated exactly when `c = Once`, and the
forwarding decision equals the (role, count) table — a primary forwards to
primaries on `Once`, to secondaries on `Twice`, drops on `MoreThanTwice`; a
secondary forwards to secondaries on `Once` and drops otherwise. -/
theorem prefReceive_matches_table {P S I ε M : Type} [Message M I]
    [SharedData S M] [DecidableEq I] (sel : Nat → Nat → List Nat)
    (gp : PreferentialGossip P S I ε M) (m : M) :
    (gp.receive sel m).engine.data
        = (if postCount gp.message_log (Message.mid m) = SeenCount.Once
            then SharedData.sdUpdate gp.data m else gp.data)
    ∧ (gp.receive sel m).targets
        = specTargets gp.primary (postCount gp.message_log (Message.mid m))
            gp.primaries gp.secondaries := by
  rw [prefReceive_eq]
  cases hcase : specTargets gp.primary (postCount gp.message_log (Message.mid m))
      gp.primaries gp.secondaries <;> simp

/-- C5: for every preferential gossip engine, of either role, `update`
applies the replica update, bumps the seen count of the message's identifier
(in particular from absent to `Once`), and hands the `primaries` list — and
only it — to the fanout helper. -/
theorem prefUpdate_forwards_primaries {P S I ε M : Type} [Message M I]
    [SharedData S M] [DecidableEq I] (sel : Nat → Nat → List Nat)
    (gp : PreferentialGossip P S I ε M) (m : M) :
    (gp.update sel m).engine.data = SharedData.sdUpdate gp.data m
    ∧ (gp.update sel m).engine.message_log (Message.mid m)
        = some (postCount gp.message_log (Message.mid m))
    ∧ (gp.message_log (Message.mid m) = none →
        (gp.update sel m).engine.message_log (Message.mid m)
          = some SeenCount.Once)
    ∧ (gp.update sel m).targets = some gp.primaries
    ∧ (gp.update sel m).sent = chooseMultiple sel gp.primaries gp.fanout := by
  rw [prefUpdate_eq]
  refine ⟨rfl, by simp, ?_, rfl, rfl⟩
  intro h
  simp [postCount, h]

theorem SeenCount.increment_ne_once (c : SeenCount) :
    c.increment ≠ SeenCount.Once := by
  cases c <;> simp [SeenCount.increment]

theorem uniformReceive_seen_self {P S I ε M : Type} [Message M I]
    [SharedData S M] [DecidableEq I] (sel : Nat → Nat → List Nat)
    (g : UniformGossip P S I ε M) (m : M) :
    (g.receive sel m).engine.seen_messages (Message.mid m) = true := by
  rw [uniformReceive_eq]
  by_cases h : g.seen_messages (Message.mid m) <;> simp [h]

theorem uniformReceive_already_seen {P S I ε M : Type} [Message M I]
    [SharedData S M] [DecidableEq I] (sel : Nat → Nat → List Nat)
    (g : UniformGossip P S I ε M) (m : M)
    (h : g.seen_messages (Message.mid m) = true) :
    g.receive sel m = ⟨Except.ok (), g, []⟩ := by
  rw [uniformReceive_eq, if_pos h]
  have hf : (fun i2 => if i2 = Message.mid m then true else g.seen_messages i2)
      = g.seen_messages := by
    funext i2
    by_cases h2 : i2 = Message.mid m
    · rw [if_pos h2, h2, h]
    · rw [if_neg h2]
  rw [hf]

theorem prefReceive_log_self {P S I ε M : Type} [Message M I]
    [SharedData S M] [DecidableEq I] (sel : Nat → Nat → List Nat)
    (gp : PreferentialGossip P S I ε M) (m : M) :
    (gp.receive sel m).engine.message_log (Message.mid m)
      = some (postCount gp.message_log (Message.mid m)) := by
  rw [prefReceive_eq]
  cases hcase : specTargets gp.primary (postCount gp.message_log (Message.mid m))
      gp.primaries gp.secondaries <;> simp

/-- C3 (amended): re-delivering a message with an already-delivered
identifier is observationally equivalent to one delivery for the uniform
engine — unchanged engine, no sends, `Ok` — while for the preferential
engine only the replica state is guaranteed unchanged (a primary's second
receipt still forwards to secondaries per the table). -/
theorem redelivery_equiv_amended {P S I ε M : Type} [Message M I]
    [SharedData S M] [DecidableEq I] (sel sel2 : Nat → Nat → List Nat)
    (g : UniformGossip P S I ε M) (gp : PreferentialGossip P S I ε M)
    (m : M) :
    (g.receive sel m).engine.receive sel2 m
        = ⟨Except.ok (), (g.receive sel m).engine, []⟩
    ∧ ((gp.receive sel m).engine.receive sel2 m).engine.data
        = (gp.receive sel m).engine.data := by
  constructor
  · exact uniformReceive_already_seen sel2 _ m (uniformReceive_seen_self sel g m)
  · have hlog := prefReceive_log_self sel gp m
    have hne : postCount (gp.receive sel m).engine.message_log (Message.mid m)
        ≠ SeenCount.Once := by
      simp [postCount, hlog, SeenCount.increment_ne_once]
    rw [prefReceive_eq sel2]
    cases hcase : specTargets (gp.receive sel m).engine.primary
        (postCount (gp.receive sel m).engine.message_log (Message.mid m))
        (gp.receive sel m).engine.primaries
        (gp.receive sel m).engine.secondaries <;> simp [hne]

/-- C7: a delivery error during `receive` (on first sight) or `update` is
propagated to the caller, while the replica mutation and dedup-table
insertion that precede the fan-out persist: for both engines the returned
result is the delivery error, the data reflects the message, and the
identifier is recorded as seen. -/
theorem delivery_error_not_rolled_back {P S I ε M : Type} [Message M I]
    [SharedData S M] [DecidableEq I] (sel : Nat → Nat → List Nat)
    (g : UniformGossip P S I ε M) (gp : PreferentialGossip P S I ε M)
    (m : M) (e : ε) :
    (g.seen_messages (Message.mid m) = false →
      g.delivery m (chooseMultiple sel g.peers g.fanout) = Except.error e →
        (g.receive sel m).result = Except.error e
        ∧ (g.receive sel m).engine.data = SharedData.sdUpdate g.data m
        ∧ (g.receive sel m).engine.seen_messages (Message.mid m) = true)
    ∧ (g.delivery m (chooseMultiple sel g.peers g.fanout) = Except.error e →
        (g.update sel m).result = Except.error e
        ∧ (g.update sel m).engine.data = SharedData.sdUpdate g.data m
        ∧ (g.update sel m).engine.seen_messages (Message.mid m) = true)
    ∧ (gp.message_log (Message.mid m) = none →
       gp.delivery m (chooseMultiple sel
           (if gp.primary then gp.primaries else gp.secondaries) gp.fanout)
         = Except.error e →
        (gp.receive sel m).result = Except.error e
        ∧ (gp.receive sel m).engine.data = SharedData.sdUpdate gp.data m
        ∧ (gp.receive sel m).engine.message_log (Message.mid m)
            = some SeenCount.Once)
    ∧ (gp.delivery m (chooseMultiple sel gp.primaries gp.fanout)
         = Except.error e →
        (gp.update sel m).result = Except.error e
        ∧ (gp.update sel m).engine.data = SharedData.sdUpdate gp.data m
        ∧ (gp.update sel m).engine.message_log (Message.mid m)
            = some (postCount gp.message_log (Message.mid m))) := by
  refine ⟨?_, ?_, ?_, ?_⟩
  · intro hfirst herr
    rw [uniformReceive_eq, hfirst]
    simp [herr]
  · intro herr
    rw [uniformUpdate_eq]
    simp [herr]
  · intro habsent herr
    have hpc : postCount gp.message_log (Message.mid m) = SeenCount.Once := by
      simp [postCount, habsent]
    have htab : specTargets gp.primary (postCount gp.message_log (Message.mid m))
        gp.primaries gp.secondaries
        = some (if gp.primary then gp.primaries else gp.secondaries) := by
      rw [hpc]
      cases hp : gp.primary <;> simp [specTargets]
    rw [prefReceive_eq, htab]
    simp [hpc, herr]
  · intro herr
    rw [prefUpdate_eq]
    simp [herr]

/-- C10: the uniform engine's `update` performs no dedup check — with the
identifier already present in `seen_messages` it still mutates the replica
and hands the peer list to the fanout helper, invoking delivery; likewise
the preferential engine's `update` increments the seen count past `Once`
and still forwards to primaries. -/
theorem update_ignores_dedup {P S I ε M : Type} [Message M I]
    [SharedData S M] [DecidableEq I] (sel : Nat → Nat → List Nat)
    (g : UniformGossip P S I ε M) (gp : PreferentialGossip P S I ε M)
    (m : M) :
    (g.seen_messages (Message.mid m) = true →
      (g.update sel m).engine.data = SharedData.sdUpdate g.data m
      ∧ (g.update sel m).sent = chooseMultiple sel g.peers g.fanout
      ∧ (g.update sel m).result
          = g.delivery m (chooseMultiple sel g.peers g.fanout))
    ∧ (gp.message_log (Message.mid m) = some SeenCount.Once →
      (gp.update sel m).engine.message_log (Message.mid m)
          = some SeenCount.Twice
      ∧ (gp.update sel m).targets = some gp.primaries
      ∧ (gp.update sel m).sent = chooseMultiple sel gp.primaries gp.fanout) := by
  constructor
  · intro _
    rw [uniformUpdate_eq]
    exact ⟨rfl, rfl, rfl⟩
  · intro hseen
    rw [prefUpdate_eq]
    refine ⟨?_, rfl, rfl⟩
    simp [postCount, hseen, SeenCount.increment]

theorem remapPeer_injective (i : Nat) : Function.Injective (remapPeer i) := by
  intro a b h
  unfold remapPeer at h
  split at h <;> split at h <;> omega

/-- C9: no constructed peer list contains the owning node's own endpoint —
in the channel adapters node `i` is filtered out of its own peer (and
primary/secondary) lists, and in the multiplexed adapter the remapped
sample consists of exactly `peers_per_node` distinct global indices, each a
valid index different from `i`, so the node's own multiplex endpoint is
absent. -/
theorem peer_construction_spec (num_nodes num_groups num_primaries
    peers_per_node i : Nat) (smp : List Nat)
    (hlen : smp.length = peers_per_node) (hnd : smp.Nodup)
    (hlt : ∀ j ∈ smp, j < num_nodes - 1) :
    i ∉ channelPeerIdx num_nodes i
    ∧ i ∉ prefChannelPrimaryIdx num_nodes num_primaries i
    ∧ i ∉ prefChannelSecondaryIdx num_nodes num_primaries i
    ∧ (multiplexPeerIdx i smp).length = peers_per_node
    ∧ (multiplexPeerIdx i smp).Nodup
    ∧ (∀ k ∈ multiplexPeerIdx i smp, k < num_nodes ∧ k ≠ i)
    ∧ NodeGroupInfo.for_node num_groups i
        ∉ multiplexPeerEndpoints num_groups i smp := by
  have h6 : ∀ k ∈ multiplexPeerIdx i smp, k < num_nodes ∧ k ≠ i := by
    intro k hk
    obtain ⟨j, hj, hjk⟩ := List.mem_map.mp hk
    have hjlt := hlt j hj
    subst hjk
    unfold remapPeer
    split <;> omega
  refine ⟨?_, ?_, ?_, ?_, ?_, h6, ?_⟩
  · simp [channelPeerIdx, List.mem_filter]
  · simp [prefChannelPrimaryIdx, List.mem_filter]
  · simp [prefChannelSecondaryIdx, List.mem_filter]
  · rw [multiplexPeerIdx, List.length_map, hlen]
  · exact hnd.map (remapPeer_injective i)
  · intro hmem
    obtain ⟨k, hk, heq⟩ := List.mem_map.mp hmem
    have hkne := (h6 k hk).2
    have e1 : k % num_groups = i % num_groups := by
      simpa [NodeGroupInfo.for_node] using congrArg NodeGroupInfo.group_index heq
    have e2 : k / num_groups = i / num_groups := by
      simpa [NodeGroupInfo.for_node] using congrArg NodeGroupInfo.node_index heq
    refine hkne ?_
    calc k = num_groups * (k / num_groups) + k % num_groups :=
          (Nat.div_add_mod k num_groups).symm
      _ = num_groups * (i / num_groups) + i % num_groups := by rw [e1, e2]
      _ = i := Nat.div_add_mod i num_groups

/-! ## Concrete instances for counterexamples and witnesses -/

def exMsg : GossipSetMessage Nat := ⟨42, GossipSetAction.add 7⟩

def exDeliverOk : GossipSetMessage Nat → List Nat → Except Nat Unit :=
  fun _ _ => Except.ok ()

def exDeliverErr : GossipSetMessage Nat → List Nat → Except Nat Unit :=
  fun _ _ => Except.error 9

def exUniformOk : UniformGossip Nat (GossipSet Nat) Nat Nat (GossipSetMessage Nat) :=
  UniformGossip.create [1, 2, 3] 2 GossipSet.deflt exDeliverOk

def exUniformErr : UniformGossip Nat (GossipSet Nat) Nat Nat (GossipSetMessage Nat) :=
  UniformGossip.create [1, 2, 3] 2 GossipSet.deflt exDeliverErr

def exUniformSeen : UniformGossip Nat (GossipSet Nat) Nat Nat (GossipSetMessage Nat) :=
  ⟨[1, 2, 3], fun i => decide (i = 42), exDeliverOk, GossipSet.deflt, 2⟩

def exPrefFresh : PreferentialGossip Nat (GossipSet Nat) Nat Nat (GossipSetMessage Nat) :=
  PreferentialGossip.create [1, 2] [3] true 1 GossipSet.deflt exDeliverOk

def exPrefErr : PreferentialGossip Nat (GossipSet Nat) Nat Nat (GossipSetMessage Nat) :=
  PreferentialGossip.create [1, 2] [3] true 1 GossipSet.deflt exDeliverErr

def exPrefSeen : PreferentialGossip Nat (GossipSet Nat) Nat Nat (GossipSetMessage Nat) :=
  ⟨[1, 2], [3], fun i => if i = 42 then some SeenCount.Once else none, true,
    exDeliverOk, GossipSet.deflt, 1⟩

def exPrefBleed : PreferentialGossip Nat (GossipSet Nat) Nat Nat (GossipSetMessage Nat) :=
  PreferentialGossip.create [] [7] true 1 GossipSet.deflt exDeliverOk

/-- C3 counterexample: for a primary preferential engine with no primary
peers, one secondary peer and fanout 1, delivering the same message twice is
not observationally equivalent to delivering it once — the second receipt
hands the secondary to delivery, so the cumulative fanout of two deliveries
differs from that of one. -/
theorem redelivery_not_equivalent_cex :
    ¬ ((exPrefBleed.receive takeSel exMsg).sent
        ++ ((exPrefBleed.receive takeSel exMsg).engine.receive takeSel exMsg).sent
      = (exPrefBleed.receive takeSel exMsg).sent) := by
  decide

/-- Witness for the fanout specification at a concrete selector, target list
and uniform engine on first sight. -/
theorem gossip_fanout_spec_witness :
    (chooseMultiple takeSel ([10, 20, 30] : List Nat) 2).length
        = min 2 ([10, 20, 30] : List Nat).length
    ∧ (exUniformOk.receive takeSel exMsg).sent.length
        = min exUniformOk.fanout exUniformOk.peers.length := by
  have h := gossip_fanout_spec takeSel validSel_takeSel ([10, 20, 30] : List Nat) 2
    exUniformOk exPrefFresh exMsg
  exact ⟨h.1, h.2.2.2.1 rfl⟩

/-- Witness for the preferential `update` specification with a fresh
identifier: the seen count goes from absent to `Once` and the target list is
the primaries. -/
theorem prefUpdate_forwards_primaries_witness :
    exPrefFresh.message_log 42 = none
    ∧ (exPrefFresh.update takeSel exMsg).engine.message_log 42
        = some SeenCount.Once
    ∧ (exPrefFresh.update takeSel exMsg).targets = some [1, 2] := by
  have h := prefUpdate_forwards_primaries takeSel exPrefFresh exMsg
  exact ⟨rfl, h.2.2.1 rfl, h.2.2.2.1⟩

/-- Witness for error propagation with an always-failing delivery: the error
is returned and the dedup insertion persists, for both engines. -/
theorem delivery_error_witness :
    (exUniformErr.receive takeSel exMsg).result = Except.error 9
    ∧ (exUniformErr.receive takeSel exMsg).engine.seen_messages 42 = true
    ∧ (exPrefErr.update takeSel exMsg).result = Except.error 9 := by
  have h := delivery_error_not_rolled_back takeSel exUniformErr exPrefErr exMsg 9
  exact ⟨(h.1 rfl rfl).1, (h.1 rfl rfl).2.2, (h.2.2.2 rfl).1⟩

/-- Witness for counter monotonicity at a concrete state with an existing
entry. -/
theorem gossipSet_monotonic_witness :
    ∃ w, (applyGossipSetOp (GossipSet.deflt.add_item 5) (GossipSetOp.addItem 5)).items 5
        = some w
      ∧ ItemActions.added_count ⟨1, 0⟩ ≤ w.added_count
      ∧ ItemActions.removed_count ⟨1, 0⟩ ≤ w.removed_count :=
  (gossipSet_monotonic (GossipSet.deflt.add_item 5) (GossipSetOp.addItem 5) 5).2.2
    ⟨1, 0⟩ (by decide)

/-- Witness for peer-list construction with six nodes, two groups and the
concrete sample `[0, 2, 4]` for node 2. -/
theorem peer_construction_spec_witness :
    (2 : Nat) ∉ channelPeerIdx 6 2
    ∧ (multiplexPeerIdx 2 [0, 2, 4]).length = 3
    ∧ ∀ k ∈ multiplexPeerIdx 2 [0, 2, 4], k < 6 ∧ k ≠ 2 := by
  have h := peer_construction_spec 6 2 2 3 2 [0, 2, 4] rfl (by decide) (by decide)
  exact ⟨h.1, h.2.2.2.1, h.2.2.2.2.2.1⟩

/-- Witness that `update` ignores the dedup state, on engines whose log
already records the message's identifier. -/
theorem update_ignores_dedup_witness :
    (exUniformSeen.update takeSel exMsg).sent
        = chooseMultiple takeSel exUniformSeen.peers exUniformSeen.fanout
    ∧ (exPrefSeen.update takeSel exMsg).engine.message_log 42
        = some SeenCount.Twice := by
  have h := update_ignores_dedup takeSel exUniformSeen exPrefSeen exMsg
  exact ⟨(h.1 rfl).2.1, (h.2 rfl).1⟩

end Pheromessage
